/-
Verification of the prolix vocabulary-quiz trainer.

Shallow embedding of the core logic of the repository:
  * prolix/store.py  : word store load / cache (read_words)
  * prolix/core.py   : WordQuiz answer evaluation, QuizRun session
                       controller, Card flash cards, CardRun controller,
                       decoy-choice generation (_get_definitions, _get_words)
  * prolix/user.py   : per-user scoring tables (_increment_word_count),
                       discard tables, the _require_user decorator

Python machine behaviour that matters here: peewee model rows are only
persisted by `save()`; `random.shuffle` produces an arbitrary permutation
(modelled by quantifying over permutations of the unshuffled list);
numpy random draws are modelled as explicit index-list parameters.
-/
import Mathlib

namespace Prolix

/-! ## Word store (`prolix/store.py`) -/

/-- One row of the backing csv file: a word and an optional definition
(pandas `NaN` definitions are `none`). -/
structure WordFileRow where
  word : String
  definition : Option String
deriving Repr, DecidableEq

/-- The backing `words.csv` file together with its modification time,
as observed by `Path.stat().st_mtime`. -/
structure WordFile where
  mtime : Nat
  rows : List WordFileRow
deriving Repr, DecidableEq

/-- The module-level `_word_cache` entry of `store.py`: the cached
dataframe (word / definition pairs) and the `read_time` stamp. -/
structure WordCache where
  df : List (String × String)
  readTime : Nat
deriving Repr, DecidableEq

/-- Loading the csv into a dataframe, from the body of `read_words`:
a missing file yields `pd.DataFrame(columns=word_columns)` (no rows),
an existing file drops the rows whose definition is null. -/
def load_df (fs : Option WordFile) : List (String × String) :=
  match fs with
  | none => []
  | some f => f.rows.filterMap (fun r => r.definition.map (fun d => (r.word, d)))

/-- Model of `df.sort_index()` before the dataframe is cached. -/
def sort_df (df : List (String × String)) : List (String × String) :=
  df.mergeSort (fun a b => decide (a.1 ≤ b.1))

/-- Model of `read_words` of `store.py`.  `fs` is the state of the backing file
(`none` when absent), `now` the value `time.time()` would return, `cache`
the module cache.  The python function calls itself recursively after
clearing or populating the cache; `fuel` bounds that recursion (the
python stack does the same).  `.error ()` is a raised `FileNotFoundError`:
the cached branch starts with `default_word_csv_path.stat()`, which
raises when the file is absent. -/
def read_words (fuel : Nat) (fs : Option WordFile) (now : Nat)
    (cache : Option WordCache) : Except Unit (List (String × String) × Option WordCache) :=
  match fuel with
  | 0 => .error ()
  | fuel + 1 =>
    match cache with
    | some c =>
      match fs with
      | none => .error ()
      | some f =>
        if c.readTime < f.mtime then
          read_words fuel fs now none
        else
          .ok (c.df, some c)
    | none =>
      let df := sort_df (load_df fs)
      read_words fuel fs now (some ⟨df, now⟩)

/-! ## Submission mapping and answer evaluation (`prolix/core.py`) -/

/-- An argument to `WordQuiz.answer_def` / `answer_word`: either a python
int or a python str (`Union[str, int]`). -/
inductive Submission where
  | num (n : Int)
  | letter (s : String)
deriving Repr, DecidableEq

/-- Model of `_letter_num_map.get s` for the module-level dict built from
`ascii_lowercase`: defined exactly on the one-character strings
`"a"`..`"z"`, sending `"a"` to `0` and so on. -/
def letter_num_map (s : String) : Option Nat :=
  match s.data with
  | [c] => if 'a' ≤ c ∧ c ≤ 'z' then some (c.toNat - 'a'.toNat) else none
  | _ => none

/-- The `WordQuiz` value object: target word, its true definition, and the
two shuffled choice lists built by `_get_words` / `_get_definitions`. -/
structure WordQuiz where
  word : String
  definition : String
  quiz_words : List String
  quiz_definitions : List String
deriving Repr, DecidableEq

/-- Model of `WordQuiz._correct_def_index`: `self.quiz_definitions.index(wdef)`,
the first index of the true definition in the choice list. -/
def WordQuiz.correct_def_index (q : WordQuiz) : Nat :=
  q.quiz_definitions.indexOf q.definition

/-- Model of `WordQuiz._correct_word_index`: `self.quiz_words.index(self.word)`. -/
def WordQuiz.correct_word_index (q : WordQuiz) : Nat :=
  q.quiz_words.indexOf q.word

/-- Model of `WordQuiz.answer_def`: `ind = _letter_num_map.get(number, number)`
followed by `ind == self._correct_def_index`.  An int is compared as an
int; a string not in the map falls back to the string itself, and a
python `str == int` comparison is `False`. -/
def WordQuiz.answer_def (q : WordQuiz) (sub : Submission) : Bool :=
  match sub with
  | .num n => n == (q.correct_def_index : Int)
  | .letter s =>
    match letter_num_map s with
    | some k => k == q.correct_def_index
    | none => false

/-- Model of `WordQuiz.answer_word`, same shape as `answer_def`. -/
def WordQuiz.answer_word (q : WordQuiz) (sub : Submission) : Bool :=
  match sub with
  | .num n => n == (q.correct_word_index : Int)
  | .letter s =>
    match letter_num_map s with
    | some k => k == q.correct_word_index
    | none => false

/-- The value `_letter_num_map.get(number, number)` is compared against:
an int stays itself, a recognised letter maps to its index, an
unrecognised string can never equal an int index (`none`). -/
def submission_index (sub : Submission) : Option Int :=
  match sub with
  | .num n => some n
  | .letter s => (letter_num_map s).map (fun k => (k : Int))

/-! ## Decoy-choice generation (`_get_definitions`, `_get_words`) -/

/-- The index list built inside `_get_definitions` before the values are
read off: `inds = np.random.randint(0, len(df), count)` is the parameter
`draws`, `true_ind` the first index of the target word,
`inds_no_correct = list(set(inds) - {true_ind})` the deduplicated draws
with the true index removed, and
`inds = ([true_ind] + inds_no_correct)[:count]`.  The final
`random.shuffle` is an arbitrary permutation, quantified over in the
theorems. -/
def get_definition_inds (true_ind : Nat) (draws : List Nat) (count : Nat) : List Nat :=
  (true_ind :: (draws.dedup.filter (fun i => i ≠ true_ind))).take count

/-- Model of `_get_definitions word count` over a store of (word, definition)
pairs: `true_ind = np.argmax(df.index == word)` is the first index whose
word matches, and the result is `df.definition.values[inds]` (before the
shuffle, which the theorems quantify over). -/
def _get_definitions (store : List (String × String)) (word : String)
    (draws : List Nat) (count : Nat) : List String :=
  let true_ind := store.findIdx (fun r => r.1 = word)
  (get_definition_inds true_ind draws count).map
    (fun i => (store.getD i ("", "")).2)

/-- Model of `_get_words word count`: `choice = np.random.choice(all_words, count)`
is the parameter `choice`, then `([word] + list(set(choice) - {word}))[:count]`
(the final `random.shuffle` is again an arbitrary permutation). -/
def _get_words (word : String) (choice : List String) (count : Nat) : List String :=
  (word :: (choice.dedup.filter (fun w => w ≠ word))).take count

/-! ## User scoring tables (`prolix/user.py`) -/

/-- Model of `right` / `wrong`, the two counter fields of a per-user quiz table. -/
inductive Field where
  | right
  | wrong
deriving Repr, DecidableEq

/-- A row of the dynamically created `quiz_<user>` peewee table; both
counters default to `0`. -/
structure QuizRow where
  word : String
  right : Nat
  wrong : Nat
deriving Repr, DecidableEq

/-- Model of `_increment_word_count` for a single word, acting on the persisted
rows of the user's quiz table.  When no row for the word exists,
`table.create(word=word, field=1)` inserts a fresh row with the chosen
field at `1` and the other at its default `0`.  When a row exists, the
code does `setattr(row, field, current + 1)` on the fetched model
instance but never calls `row.save()`, so no UPDATE is issued and the
persisted table is unchanged. -/
def _increment_word_count (table : List QuizRow) (word : String) (field : Field) :
    List QuizRow :=
  match table.find? (fun r => r.word == word) with
  | none =>
    table ++ [{ word := word,
                right := if field = .right then 1 else 0,
                wrong := if field = .wrong then 1 else 0 }]
  | some _ => table

/-- One entry of `User.get_quiz_df`: the default table gives every store
word the counters `(0, 0)` and `default.add(df.set_index('word'), fill_value=0)`
adds the user's persisted row on top. -/
def get_scoreboard (table : List QuizRow) (w : String) : Nat × Nat :=
  match table.find? (fun r => r.word == w) with
  | some r => (r.right, r.wrong)
  | none => (0, 0)

/-- Model of `User.discard_word` at the table level: `insert_many` appends one row
per word; a single word is `iterate`-wrapped into a one-element tuple. -/
def discard_word_rows (rows : List String) (word : String) : List String :=
  rows ++ [word]

/-- Model of `User.get_discarded_words`: a python set comprehension over the rows
of the `discarded_<user>` table. -/
def get_discarded_words_rows (rows : List String) : Finset String :=
  rows.toFinset

/-! ## Quiz session controller (`QuizRun`) -/

/-- The state of a `QuizRun`.  `remaining` is `_remaining_questions`
(a python int, so it may go negative), `answeredCorrectly` the
`_answered_correctly` missed-flag, `hasExited` the `_has_exited` flag set
by `exit_program`, `currentWord` the word of the current `WordQuiz`.
`events` is the ordered trace of `_user.correctly_answered_word` /
`incorrectly_answered_word` calls and `correctCount` counts the
submissions for which `quiz.answer` returned `True` (both ghost
observations of the run). -/
structure QuizRunState where
  remaining : Int
  answeredCorrectly : Bool
  hasExited : Bool
  currentWord : String
  events : List (String × Field)
  correctCount : Nat
deriving Repr, DecidableEq

/-- Model of `QuizRun._get_new_quiz`: build a fresh `WordQuiz` (its randomly drawn
word is the parameter `w`), decrement `_remaining_questions`, reset the
missed-flag.  -/
def get_new_quiz (st : QuizRunState) (w : String) : QuizRunState :=
  { st with currentWord := w, remaining := st.remaining - 1,
            answeredCorrectly := true }

/-- Model of `QuizRun.__init__` with `question_count = n`: the counter starts at
`n` and `_get_new_quiz` (building the first question, the word `w0`) is
called once, so the displayed first question already leaves
`_remaining_questions = n - 1`. -/
def QuizRunState.init (n : Int) (w0 : String) : QuizRunState :=
  get_new_quiz
    { remaining := n, answeredCorrectly := true, hasExited := false,
      currentWord := "", events := [], correctCount := 0 } w0

/-- Model of `QuizRun.item_chosen`: evaluate the chosen answer (`isCorrect` is the
value of `quiz.answer(choice)`; the evaluation itself is `answer_def` /
`answer_word`).  If correct: record a "right" point only when the
question was never missed, then build a new quiz (drawing the word `w`).
If incorrect: set the missed-flag and record a "wrong" point, staying on
the same question.  In both cases, exit when `_remaining_questions < 1`.
After `exit_program` the urwid main loop delivers no further events,
hence the `hasExited` guard. -/
def item_chosen (st : QuizRunState) (isCorrect : Bool) (w : String) : QuizRunState :=
  if st.hasExited then st
  else
    let st1 :=
      if isCorrect then
        let st0 :=
          if st.answeredCorrectly then
            { st with events := st.events ++ [(st.currentWord, Field.right)] }
          else st
        get_new_quiz { st0 with correctCount := st0.correctCount + 1 } w
      else
        { st with answeredCorrectly := false,
                  events := st.events ++ [(st.currentWord, Field.wrong)] }
    if st1.remaining < 1 then { st1 with hasExited := true } else st1

/-! ## Flash cards (`Card`, `CardRun`) -/

/-- A flash card.  `fliperator` and `siderator` are the two
`itertools.cycle` iterators of `Card.__init__`; each `Bool` is the
iterator's position: `false` means the next `next()` yields the first
element of its cycle (`formated_definition` / `"definition"`). -/
structure Card where
  word : String
  formated_definition : String
  side : String
  displayed_text : String
  fliperator : Bool
  siderator : Bool
deriving Repr, DecidableEq

/-- Model of `Card.__init__` for a chosen word and its (already formatted)
definition: the card starts on the word side showing the word, both
cycles at their start. -/
def Card.init (w fdef : String) : Card :=
  { word := w, formated_definition := fdef, side := "word",
    displayed_text := w, fliperator := false, siderator := false }

/-- Model of `Card.flip`: `displayed_text = next(fliperator)` and
`side = next(siderator)`; each `next` returns the element at the
iterator's position and advances it. -/
def Card.flip (c : Card) : Card :=
  { c with
    displayed_text := if c.fliperator then c.word else c.formated_definition,
    fliperator := !c.fliperator,
    side := if c.siderator then "word" else "definition",
    siderator := !c.siderator }

/-- The state of a `CardRun`.  `defs` is the word store the run reads
definitions from, `words` the live deck (`self.words`), `side` the
`_side` preference, `card` the current card, `hasExited` the
`_has_exited` flag.  `discards` is the ghost trace of the words removed
by discard ('left') inputs. -/
structure CardRunState where
  defs : List (String × String)
  words : List String
  side : String
  card : Card
  hasExited : Bool
  discards : List String
deriving Repr, DecidableEq

/-- Model of `df.loc[word]` over the store: the definition paired with the word
(the constructor is only reached for words of the store). -/
def lookup_def (defs : List (String × String)) (w : String) : String :=
  (((defs.find? (fun r => r.1 = w)).map (fun r => r.2)).getD "")

/-- Model of `CardRun.draw_card`: exit when the deck is empty, otherwise build a
`Card` from a randomly chosen word of the deck (`np.random.choice`,
modelled by the index parameter `pick` reduced mod the deck size) and
pre-flip it when the session is on the definition side. -/
def draw_card (st : CardRunState) (pick : Nat) : CardRunState :=
  if st.words.isEmpty then { st with hasExited := true }
  else
    let w := st.words.getD (pick % st.words.length) ""
    let c := Card.init w (lookup_def st.defs w)
    let c := if st.side = "definition" then c.flip else c
    { st with card := c }

/-- The inputs `CardRun._handle_input` reacts to: `'q'`, `'right'`
(keep), `'left'` (discard), `'f'` or a mouse press (flip). -/
inductive CardInput where
  | quit
  | keep
  | discard
  | flipKey
deriving Repr, DecidableEq

/-- Model of `CardRun._handle_input`.  Keep draws the next card from the
unchanged deck; discard does `self.words.remove(self.card.word)` (remove
the first occurrence of the current card's word) and then draws; flip
flips the card and records its new side as the session side.  After
`exit_program` the main loop delivers no further input, hence the
`hasExited` guard. -/
def handle_input (st : CardRunState) (k : CardInput) (pick : Nat) : CardRunState :=
  if st.hasExited then st
  else
    match k with
    | .quit => { st with hasExited := true }
    | .keep => draw_card st pick
    | .discard =>
      draw_card
        { st with words := st.words.erase st.card.word,
                  discards := st.discards ++ [st.card.word] } pick
    | .flipKey =>
      let c := st.card.flip
      { st with card := c, side := c.side }

/-- Model of `CardRun.__init__`: the deck is the full word list of the store and
the first card is drawn. -/
def CardRunState.init (defs : List (String × String)) (side : String)
    (pick : Nat) : CardRunState :=
  draw_card
    { defs := defs, words := defs.map (fun r => r.1), side := side,
      card := Card.init "" "", hasExited := false, discards := [] } pick

/-- A run of discard inputs: each element of `picks` feeds one
`'left'` key press (with its random draw index). -/
def run_discards (st : CardRunState) (picks : List Nat) : CardRunState :=
  picks.foldl (fun s p => handle_input s .discard p) st

/-! ## User store and the `_require_user` decorator (`prolix/user.py`) -/

/-- The persistent user store: the per-user `quiz_<user>` and
`discarded_<user>` tables and the current-user pointer file. -/
structure UserStore where
  quizTables : List (String × List QuizRow)
  discardTables : List (String × List String)
  currentUser : Option String
deriving Repr, DecidableEq

/-- The rows of a per-user table, an empty table when the user has
none yet (`_add_user_to_db` creates empty tables). -/
def get_table (tables : List (String × List α)) (u : String) : List α :=
  (((tables.find? (fun r => r.1 = u)).map (fun r => r.2)).getD [])

/-- Replace (or create) the rows of a per-user table. -/
def set_table (tables : List (String × List α)) (u : String) (t : List α) :
    List (String × List α) :=
  if (tables.find? (fun r => r.1 = u)).isSome then
    tables.map (fun r => if r.1 = u then (u, t) else r)
  else
    tables ++ [(u, t)]

/-- Model of `User.__init__`: `self.name = name or _get_current_user_name()`. -/
def resolve_user (name : Option String) (st : UserStore) : Option String :=
  match name with
  | some n => some n
  | none => st.currentUser

/-- Model of `User.correctly_answered_word` under the `_require_user` decorator:
a user-less `User` silently returns `None` without touching the store;
otherwise one `'right'` increment is applied to the user's quiz table. -/
def user_correctly_answered (name : Option String) (st : UserStore) (word : String) :
    Option Unit × UserStore :=
  match name with
  | none => (none, st)
  | some u =>
    let t := set_table st.quizTables u
      (_increment_word_count (get_table st.quizTables u) word .right)
    (some (), { st with quizTables := t })

/-- Model of `User.incorrectly_answered_word` under `_require_user`. -/
def user_incorrectly_answered (name : Option String) (st : UserStore) (word : String) :
    Option Unit × UserStore :=
  match name with
  | none => (none, st)
  | some u =>
    let t := set_table st.quizTables u
      (_increment_word_count (get_table st.quizTables u) word .wrong)
    (some (), { st with quizTables := t })

/-- Model of `User.discard_word` under `_require_user`. -/
def user_discard_word (name : Option String) (st : UserStore) (word : String) :
    Option Unit × UserStore :=
  match name with
  | none => (none, st)
  | some u =>
    let t := set_table st.discardTables u
      (discard_word_rows (get_table st.discardTables u) word)
    (some (), { st with discardTables := t })

/-- Model of `User.get_discarded_words` under `_require_user`. -/
def user_get_discarded_words (name : Option String) (st : UserStore) :
    Option (Finset String) × UserStore :=
  match name with
  | none => (none, st)
  | some u => (some (get_discarded_words_rows (get_table st.discardTables u)), st)

/-- Model of `User.get_quiz_df` under `_require_user`, returned as the list of
(word, (right, wrong)) rows over the words of the word store. -/
def user_get_quiz_df (name : Option String) (st : UserStore)
    (storeWords : List String) : Option (List (String × (Nat × Nat))) × UserStore :=
  match name with
  | none => (none, st)
  | some u =>
    (some (storeWords.map (fun w => (w, get_scoreboard (get_table st.quizTables u) w))), st)

/-! ## Invariant predicates used by the theorems -/

/-- Consistency of a `Card`'s iterator positions with its displayed
state; holds for `Card.init` and is preserved by `Card.flip`. -/
def Card.WF (c : Card) : Prop :=
  c.siderator = c.fliperator ∧
  (c.fliperator = false → c.side = "word" ∧ c.displayed_text = c.word) ∧
  (c.fliperator = true → c.side = "definition" ∧ c.displayed_text = c.formated_definition)

/-- Invariant of a `CardRun`: deck and discard trace are duplicate-free,
no discarded word is still in the deck, and while the session is live the
current card's word is a deck member. -/
def CardInv (st : CardRunState) : Prop :=
  st.words.Nodup ∧ st.discards.Nodup ∧
  (∀ w ∈ st.discards, w ∉ st.words) ∧
  (st.hasExited = false → st.card.word ∈ st.words)

/-! ## Shared helper lemmas -/

theorem getD_mem_of_lt {α : Type} (l : List α) (n : Nat) (d : α)
    (h : n < l.length) : l.getD n d ∈ l := by
  induction l generalizing n with
  | nil => simp at h
  | cons a t ih =>
    cases n with
    | zero => simp [List.getD]
    | succ m =>
      simp only [List.getD_cons_succ]
      exact List.mem_cons_of_mem _ (ih m (by simpa using h))

/-- The common shape of both decoy builders: force-include the true
entry `a` in front of the deduplicated pool with `a` removed, truncate
to `count`, shuffle (any permutation `out`).  The result is no longer
than `count`, duplicate-free, contains `a` exactly once, and only holds
`a` or pool members. -/
theorem force_include_spec {α : Type} [DecidableEq α] (a : α) (l : List α)
    (count : Nat) (hc : 1 ≤ count) (out : List α)
    (hp : out.Perm ((a :: (l.dedup.filter (fun x => x ≠ a))).take count)) :
    out.length ≤ count ∧ out.Nodup ∧ out.count a = 1 ∧ ∀ x ∈ out, x = a ∨ x ∈ l := by
  obtain ⟨k, rfl⟩ : ∃ k, count = k + 1 := ⟨count - 1, by omega⟩
  have hnodupBase : (a :: (l.dedup.filter (fun x => x ≠ a))).Nodup := by
    refine List.nodup_cons.mpr ⟨?_, ?_⟩
    · simp
    · exact (l.nodup_dedup).filter _
  have htake : (a :: (l.dedup.filter (fun x => x ≠ a))).take (k + 1) =
      a :: (l.dedup.filter (fun x => x ≠ a)).take k := by
    simp
  refine ⟨?_, ?_, ?_, ?_⟩
  · rw [hp.length_eq, List.length_take]
    omega
  · exact (hp.nodup_iff).mpr ((List.take_sublist _ _).nodup hnodupBase)
  · rw [hp.count_eq, htake]
    simp only [List.count_cons]
    have hz : ((l.dedup.filter (fun x => x ≠ a)).take k).count a = 0 := by
      refine List.count_eq_zero.mpr (fun hmem => ?_)
      have := (List.take_sublist k _).subset hmem
      simp at this
    rw [hz]
    simp
  · intro x hx
    have hx' : x ∈ (a :: (l.dedup.filter (fun x => x ≠ a))).take (k + 1) :=
      (hp.mem_iff).mp hx
    have hx'' := (List.take_sublist _ _).subset hx'
    rcases List.mem_cons.mp hx'' with rfl | hmem
    · exact Or.inl rfl
    · exact Or.inr (List.mem_dedup.mp (List.mem_of_mem_filter hmem))

/-- Model of `draw_card` never changes the deck, the discard trace or the store;
it exits exactly when the deck was already empty (or the run had
exited), and on a non-empty deck the drawn card's word is a deck
member. -/
theorem draw_card_fields (st : CardRunState) (p : Nat) :
    (draw_card st p).words = st.words ∧
    (draw_card st p).discards = st.discards ∧
    (draw_card st p).defs = st.defs ∧
    ((draw_card st p).hasExited = true ↔ (st.hasExited = true ∨ st.words = [])) ∧
    (st.words ≠ [] → (draw_card st p).card.word ∈ st.words) := by
  by_cases h : st.words.isEmpty
  · have hnil : st.words = [] := List.isEmpty_iff.mp h
    simp [draw_card, h, hnil]
  · have hne : st.words ≠ [] := fun hh => h (by simp [hh])
    have hlt : p % st.words.length < st.words.length :=
      Nat.mod_lt _ (by
        cases hw : st.words with
        | nil => exact absurd hw hne
        | cons a t => simp [hw])
    have hmem : st.words[p % st.words.length]?.getD "" ∈ st.words := by
      simpa [List.getD] using getD_mem_of_lt st.words (p % st.words.length) "" hlt
    refine ⟨by simp [draw_card, h], by simp [draw_card, h], by simp [draw_card, h],
      by simp [draw_card, h, hne], ?_⟩
    intro _
    simp only [draw_card, h, Bool.false_eq_true, if_false]
    by_cases hs : st.side = "definition" <;> simp [hs, Card.flip, Card.init, hmem]

/-- A discard (`'left'`) on a live run removes exactly the current
card's word from the deck, appends it to the discard trace, exits
exactly when the deck thereby became empty, and otherwise draws the new
card from the shrunken deck. -/
theorem discard_step_char (st : CardRunState) (p : Nat) (hE : st.hasExited = false) :
    (handle_input st .discard p).words = st.words.erase st.card.word ∧
    (handle_input st .discard p).discards = st.discards ++ [st.card.word] ∧
    ((handle_input st .discard p).hasExited = true ↔ st.words.erase st.card.word = []) ∧
    (st.words.erase st.card.word ≠ [] →
      (handle_input st .discard p).card.word ∈ st.words.erase st.card.word) := by
  have hstep : handle_input st .discard p =
      draw_card { st with words := st.words.erase st.card.word,
                          discards := st.discards ++ [st.card.word] } p := by
    simp [handle_input, hE]
  have hfields := draw_card_fields
    { st with words := st.words.erase st.card.word,
              discards := st.discards ++ [st.card.word] } p
  rw [hstep]
  refine ⟨hfields.1, hfields.2.1, ?_, hfields.2.2.2.2⟩
  rw [hfields.2.2.2.1]
  simp [hE]

/-- A discard on a live run preserves the `CardInv` invariant and
shrinks the deck by exactly one word. -/
theorem discard_preserves_inv (st : CardRunState) (p : Nat)
    (hInv : CardInv st) (hE : st.hasExited = false) :
    CardInv (handle_input st .discard p) ∧
    (handle_input st .discard p).words.length + 1 = st.words.length := by
  obtain ⟨hw, hd, hdisj, hcard⟩ := hInv
  have hc := discard_step_char st p hE
  have hcw : st.card.word ∈ st.words := hcard hE
  have hcw_nd : st.card.word ∉ st.discards := fun hmem => hdisj _ hmem hcw
  refine ⟨⟨?_, ?_, ?_, ?_⟩, ?_⟩
  · rw [hc.1]; exact hw.erase _
  · rw [hc.2.1]
    refine List.Nodup.append hd (by simp) ?_
    intro x hx hx'
    simp at hx'
    subst hx'
    exact hcw_nd hx
  · rw [hc.2.1, hc.1]
    intro x hx
    rcases List.mem_append.mp hx with hx1 | hx2
    · exact fun hin => hdisj x hx1 (List.mem_of_mem_erase hin)
    · simp at hx2
      subst hx2
      exact hw.not_mem_erase
  · intro hE'
    rw [hc.1]
    refine hc.2.2.2 ?_
    intro hnil
    rw [hE'] at hc
    exact absurd (hc.2.2.1.mpr hnil) (by simp)
  · rw [hc.1]
    exact List.length_erase_add_one hcw

/-- Running as many discards as the live deck has words exits the
session, having discarded one word per input, all distinct. -/
theorem run_discards_spec (picks : List Nat) :
    ∀ (st : CardRunState), CardInv st → st.hasExited = false →
    picks.length = st.words.length →
    (run_discards st picks).hasExited = true ∧
    (run_discards st picks).discards.length = st.discards.length + picks.length ∧
    (run_discards st picks).discards.Nodup := by
  induction picks with
  | nil =>
    intro st hInv hE hlen
    exfalso
    have hcw := hInv.2.2.2 hE
    have : st.words = [] := List.length_eq_zero.mp hlen.symm
    rw [this] at hcw
    simp at hcw
  | cons p ps ih =>
    intro st hInv hE hlen
    have hrun : run_discards st (p :: ps) =
        run_discards (handle_input st .discard p) ps := by
      simp [run_discards]
    have hc := discard_step_char st p hE
    have hpres := discard_preserves_inv st p hInv hE
    rw [hrun]
    by_cases hnil : st.words.erase st.card.word = []
    · have hps : ps = [] := by
        have h1 := hpres.2
        rw [hc.1, hnil] at h1
        simp at h1
        have : ps.length = 0 := by
          have := hlen
          simp at this
          omega
        exact List.length_eq_zero.mp this
      subst hps
      have hrun0 : run_discards (handle_input st .discard p) [] =
          handle_input st .discard p := rfl
      rw [hrun0]
      refine ⟨hc.2.2.1.mpr hnil, ?_, ?_⟩
      · rw [hc.2.1]; simp
      · exact hpres.1.2.1
    · have hE' : (handle_input st .discard p).hasExited = false := by
        cases hx : (handle_input st .discard p).hasExited
        · rfl
        · exact absurd (hc.2.2.1.mp hx) hnil
      have hlen' : ps.length = (handle_input st .discard p).words.length := by
        have h1 := hpres.2
        have := hlen
        simp at this
        omega
      have := ih (handle_input st .discard p) hpres.1 hE' hlen'
      refine ⟨this.1, ?_, this.2.2⟩
      rw [this.2.1, hc.2.1]
      simp
      omega

/-! ## Claim theorems -/

/-- C5: for every built quiz and every submitted answer — an integer, or
a string that is mapped through the letter dictionary (`'a'`→0, `'b'`→1,
…) — `answer_def` (resp. `answer_word`) returns `true` if and only if
the mapped value equals the index of the correct choice; out-of-range
integers and unrecognised strings always map to a non-matching value and
evaluate to `false`, and evaluation is a total function (never raises). -/
theorem answer_eval_iff_submission_index (q : WordQuiz) (sub : Submission) :
    (q.answer_def sub = true ↔ submission_index sub = some (q.correct_def_index : Int)) ∧
    (q.answer_word sub = true ↔ submission_index sub = some (q.correct_word_index : Int)) := by
  cases sub with
  | num n =>
    simp [WordQuiz.answer_def, WordQuiz.answer_word, submission_index]
  | letter s =>
    cases h : letter_num_map s with
    | none =>
      simp [WordQuiz.answer_def, WordQuiz.answer_word, submission_index, h]
    | some k =>
      simp [WordQuiz.answer_def, WordQuiz.answer_word, submission_index, h]

/-- C8: after `discard_word` the discarded-word set contains the word,
and discarding the same word a second time leaves the observable
discarded set (a python set built from the table rows) unchanged. -/
theorem discard_word_roundtrip_idempotent (rows : List String) (w : String) :
    w ∈ get_discarded_words_rows (discard_word_rows rows w) ∧
    get_discarded_words_rows (discard_word_rows (discard_word_rows rows w) w) =
      get_discarded_words_rows (discard_word_rows rows w) := by
  constructor
  · simp [get_discarded_words_rows, discard_word_rows]
  · apply Finset.ext
    intro x
    simp [get_discarded_words_rows, discard_word_rows]

/-- C2, behaviour at the failing input: the first
`record_result("alice","cat","right")` creates the row and the
scoreboard shows `(1, 0)`, but the second identical call leaves the
persisted table unchanged — the fetched row is mutated in memory and
never saved — so the scoreboard still shows `(1, 0)` instead of the
claimed `(2, 0)`. -/
theorem increment_word_count_second_call_lost :
    _increment_word_count [] "cat" .right = [⟨"cat", 1, 0⟩] ∧
    get_scoreboard (_increment_word_count [] "cat" .right) "cat" = (1, 0) ∧
    _increment_word_count (_increment_word_count [] "cat" .right) "cat" .right =
      _increment_word_count [] "cat" .right ∧
    get_scoreboard
      (_increment_word_count (_increment_word_count [] "cat" .right) "cat" .right)
      "cat" = (1, 0) := by
  decide

/-- C3, behaviour when the backing word file is absent: every call to
`read_words` raises `FileNotFoundError` instead of returning an empty
store.  The `except FileNotFoundError` branch does build an empty
dataframe, but the function then caches it and recurses, and the cached
branch starts with `default_word_csv_path.stat()`, which raises on the
absent file; a call that starts with a populated cache raises the same
way.  (`fuel + 2` covers any recursion depth ≥ 2; the absent-file case
is decided within two unfoldings.) -/
theorem read_words_raises_when_file_absent (fuel now : Nat) (cache : Option WordCache) :
    read_words (fuel + 2) none now cache = .error () := by
  cases cache with
  | none => simp [read_words]
  | some c => simp [read_words]

/-- C1, behaviour at the failing input: a session configured with
`question_count = 2` and answered correctly every time exits after a
single correct submission — `_get_new_quiz` already decrements the
counter when the first question is built in `__init__`, and
`item_chosen` checks `_remaining_questions < 1` right after building the
next quiz — so the run records one `"right"` event and one correct
submission, not the claimed two. -/
theorem quiz_run_question_count_off_by_one :
    (item_chosen (QuizRunState.init 2 "apple") true "bravo").hasExited = true ∧
    (item_chosen (QuizRunState.init 2 "apple") true "bravo").correctCount = 1 ∧
    (item_chosen (QuizRunState.init 2 "apple") true "bravo").events =
      [("apple", Field.right)] ∧
    (∀ (b : Bool) (w : String),
      item_chosen (item_chosen (QuizRunState.init 2 "apple") true "bravo") b w =
        item_chosen (QuizRunState.init 2 "apple") true "bravo") := by
  refine ⟨by decide, by decide, by decide, ?_⟩
  intro b w
  rfl

/-- C10: a `User` constructed with no name while no current-user pointer
is set resolves to the user-less user, and every scoring and discard
operation guarded by `_require_user` returns `None` without touching the
store and without raising. -/
theorem userless_user_ops_are_noops (st : UserStore) (w : String)
    (storeWords : List String) (h : st.currentUser = none) :
    resolve_user none st = none ∧
    user_correctly_answered (resolve_user none st) st w = (none, st) ∧
    user_incorrectly_answered (resolve_user none st) st w = (none, st) ∧
    user_discard_word (resolve_user none st) st w = (none, st) ∧
    user_get_discarded_words (resolve_user none st) st = (none, st) ∧
    user_get_quiz_df (resolve_user none st) st storeWords = (none, st) := by
  simp [resolve_user, h, user_correctly_answered, user_incorrectly_answered,
        user_discard_word, user_get_discarded_words, user_get_quiz_df]

theorem userless_user_ops_are_noops_witness :
    (UserStore.mk [] [] none).currentUser = none ∧
    (resolve_user none (UserStore.mk [] [] none) = none ∧
      user_correctly_answered (resolve_user none (UserStore.mk [] [] none))
        (UserStore.mk [] [] none) "cat" = (none, UserStore.mk [] [] none) ∧
      user_incorrectly_answered (resolve_user none (UserStore.mk [] [] none))
        (UserStore.mk [] [] none) "cat" = (none, UserStore.mk [] [] none) ∧
      user_discard_word (resolve_user none (UserStore.mk [] [] none))
        (UserStore.mk [] [] none) "cat" = (none, UserStore.mk [] [] none) ∧
      user_get_discarded_words (resolve_user none (UserStore.mk [] [] none))
        (UserStore.mk [] [] none) = (none, UserStore.mk [] [] none) ∧
      user_get_quiz_df (resolve_user none (UserStore.mk [] [] none))
        (UserStore.mk [] [] none) ["cat"] = (none, UserStore.mk [] [] none)) :=
  ⟨rfl, userless_user_ops_are_noops (UserStore.mk [] [] none) "cat" ["cat"] rfl⟩

/-- C9: on every consistent card (as produced by `Card.__init__` and its
flips), `flip` toggles the side between `"word"` and `"definition"` with
the displayed text matching the new side (word text on the word side,
formatted definition on the definition side), flipping twice restores
the previous (side, displayed text) pair, and a flip key press leaves
the session's deck unchanged. -/
theorem card_flip_toggles_and_involutes (c : Card) (h : c.WF) :
    ((c.side = "word" ∧ c.flip.side = "definition" ∧
      c.flip.displayed_text = c.formated_definition) ∨
     (c.side = "definition" ∧ c.flip.side = "word" ∧
      c.flip.displayed_text = c.word)) ∧
    c.flip.flip.side = c.side ∧
    c.flip.flip.displayed_text = c.displayed_text ∧
    (∀ (st : CardRunState) (p : Nat), st.hasExited = false →
      (handle_input st .flipKey p).words = st.words) := by
  obtain ⟨hs, h0, h1⟩ := h
  refine ⟨?_, ?_, ?_, ?_⟩
  · cases hf : c.fliperator
    · exact Or.inl ⟨(h0 hf).1, by simp [Card.flip, hs, hf], by simp [Card.flip, hf]⟩
    · exact Or.inr ⟨(h1 hf).1, by simp [Card.flip, hs, hf], by simp [Card.flip, hf]⟩
  · cases hf : c.fliperator
    · simp [Card.flip, hs, hf, (h0 hf).1]
    · simp [Card.flip, hs, hf, (h1 hf).1]
  · cases hf : c.fliperator
    · simp [Card.flip, hf, (h0 hf).2]
    · simp [Card.flip, hf, (h1 hf).2]
  · intro st p hE
    simp [handle_input, hE]

theorem card_flip_toggles_and_involutes_witness :
    (Card.init "cat" "a small feline").WF ∧
    (((Card.init "cat" "a small feline").side = "word" ∧
      (Card.init "cat" "a small feline").flip.side = "definition" ∧
      (Card.init "cat" "a small feline").flip.displayed_text =
        (Card.init "cat" "a small feline").formated_definition) ∨
     ((Card.init "cat" "a small feline").side = "definition" ∧
      (Card.init "cat" "a small feline").flip.side = "word" ∧
      (Card.init "cat" "a small feline").flip.displayed_text =
        (Card.init "cat" "a small feline").word)) ∧
    (Card.init "cat" "a small feline").flip.flip.side =
      (Card.init "cat" "a small feline").side ∧
    (Card.init "cat" "a small feline").flip.flip.displayed_text =
      (Card.init "cat" "a small feline").displayed_text :=
  ⟨by simp [Card.WF, Card.init],
   (card_flip_toggles_and_involutes (Card.init "cat" "a small feline") (by simp [Card.WF, Card.init])).1,
   (card_flip_toggles_and_involutes (Card.init "cat" "a small feline") (by simp [Card.WF, Card.init])).2.1,
   (card_flip_toggles_and_involutes (Card.init "cat" "a small feline") (by simp [Card.WF, Card.init])).2.2.1⟩

/-- C6: within a live quiz session, an incorrect submission records one
`"wrong"` point for the current word, clears the never-missed flag and
stays on the same question; the eventual correct answer on a question
missed at least once records no `"right"` point, and building the new
question resets the missed flag to never-missed. -/
theorem missed_question_earns_no_right_credit (st : QuizRunState) (w : String)
    (h : st.hasExited = false) :
    ((item_chosen st false w).events = st.events ++ [(st.currentWord, Field.wrong)] ∧
     (item_chosen st false w).answeredCorrectly = false ∧
     (item_chosen st false w).currentWord = st.currentWord) ∧
    (st.answeredCorrectly = false →
      (item_chosen st true w).events = st.events ∧
      (item_chosen st true w).answeredCorrectly = true) := by
  constructor
  · simp only [item_chosen, h, Bool.false_eq_true, if_false]
    split <;> simp
  · intro hm
    simp only [item_chosen, h, hm, Bool.false_eq_true, if_false, if_true, get_new_quiz]
    split <;> simp

theorem missed_question_earns_no_right_credit_witness :
    (QuizRunState.mk 5 false false "cat" [] 0).hasExited = false ∧
    (QuizRunState.mk 5 false false "cat" [] 0).answeredCorrectly = false ∧
    (item_chosen (QuizRunState.mk 5 false false "cat" [] 0) false "dog").events =
      (QuizRunState.mk 5 false false "cat" [] 0).events ++ [("cat", Field.wrong)] ∧
    (item_chosen (QuizRunState.mk 5 false false "cat" [] 0) true "dog").events =
      (QuizRunState.mk 5 false false "cat" [] 0).events ∧
    (item_chosen (QuizRunState.mk 5 false false "cat" [] 0) true "dog").answeredCorrectly =
      true :=
  ⟨rfl, rfl,
   (missed_question_earns_no_right_credit (QuizRunState.mk 5 false false "cat" [] 0)
     "dog" rfl).1.1,
   ((missed_question_earns_no_right_credit (QuizRunState.mk 5 false false "cat" [] 0)
     "dog" rfl).2 rfl).1,
   ((missed_question_earns_no_right_credit (QuizRunState.mk 5 false false "cat" [] 0)
     "dog" rfl).2 rfl).2⟩

/-- C4, counterexample: on a store in which two words share a
definition, `_get_definitions` can return a choice list with duplicate
entries containing the true choice twice — the code deduplicates
*indices*, not definition strings.  Store
`[("alpha","shared"), ("beta","shared")]`, target word `"alpha"`,
random draws `[1]`, requested count `2`, identity shuffle (a possible
outcome of `random.shuffle`): the choice list is
`["shared", "shared"]`. -/
theorem get_definitions_duplicate_choice_counterexample :
    _get_definitions [("alpha", "shared"), ("beta", "shared")] "alpha" [1] 2 =
      ["shared", "shared"] ∧
    ¬ (_get_definitions [("alpha", "shared"), ("beta", "shared")] "alpha" [1] 2).Nodup ∧
    (_get_definitions [("alpha", "shared"), ("beta", "shared")] "alpha" [1] 2).count
      "shared" = 2 := by
  decide

/-- C4, amended: for every word present in the store and requested
count ≥ 1, and any random draws and shuffle, the *index* list built by
`_get_definitions` has length at most `count`, no duplicate indices, and
the word's own index exactly once; the word-direction choice list of
`_get_words` likewise contains the target word exactly once with no
duplicates; and the definition-direction choice list itself has no
duplicate entries and contains the true definition exactly once provided
the store's definitions are pairwise distinct (with in-range draws). -/
theorem quiz_choice_lists_spec (store : List (String × String)) (word : String)
    (draws : List Nat) (choice : List String) (count : Nat)
    (outI : List Nat) (outW : List String)
    (hw : store.findIdx (fun r => r.1 = word) < store.length)
    (hc : 1 ≤ count)
    (hpI : outI.Perm (get_definition_inds (store.findIdx (fun r => r.1 = word)) draws count))
    (hpW : outW.Perm (_get_words word choice count)) :
    (outI.length ≤ count ∧ outI.Nodup ∧
      outI.count (store.findIdx (fun r => r.1 = word)) = 1) ∧
    (outW.length ≤ count ∧ outW.Nodup ∧ outW.count word = 1) ∧
    ((store.map (fun r => r.2)).Nodup → (∀ i ∈ draws, i < store.length) →
      (outI.map (fun i => (store.getD i ("", "")).2)).Nodup ∧
      (outI.map (fun i => (store.getD i ("", "")).2)).count
        ((store.getD (store.findIdx (fun r => r.1 = word)) ("", "")).2) = 1) := by
  have hpI' := hpI
  simp only [get_definition_inds] at hpI'
  have hpW' := hpW
  simp only [_get_words] at hpW'
  have hI := force_include_spec (store.findIdx (fun r => r.1 = word)) draws count hc outI hpI'
  have hW := force_include_spec word choice count hc outW hpW'
  refine ⟨⟨hI.1, hI.2.1, hI.2.2.1⟩, ⟨hW.1, hW.2.1, hW.2.2.1⟩, ?_⟩
  intro hdefs hdraws
  have hmem : ∀ i ∈ outI, i < store.length := by
    intro i hi
    rcases hI.2.2.2 i hi with rfl | hid
    · exact hw
    · exact hdraws i hid
  have hbridge : ∀ i, i < store.length →
      (store.getD i ("", "")).2 = (store.map (fun r => r.2)).getD i "" := by
    intro i hi
    rw [List.getD_eq_getElem store ("", "") hi,
        List.getD_eq_getElem (store.map (fun r => r.2)) "" (by simpa using hi)]
    simp
  have hinj : ∀ i ∈ outI, ∀ j ∈ outI,
      (store.getD i ("", "")).2 = (store.getD j ("", "")).2 → i = j := by
    intro i hi j hj hij
    have hi' := hmem i hi
    have hj' := hmem j hj
    have hi'' : i < (store.map (fun r => r.2)).length := by simpa using hi'
    have hj'' : j < (store.map (fun r => r.2)).length := by simpa using hj'
    rw [hbridge i hi', hbridge j hj',
        List.getD_eq_getElem (store.map (fun r => r.2)) "" hi'',
        List.getD_eq_getElem (store.map (fun r => r.2)) "" hj''] at hij
    exact hdefs.getElem_inj_iff.mp hij
  constructor
  · exact hI.2.1.map_on hinj
  · have ht : store.findIdx (fun r => r.1 = word) ∈ outI := by
      have := hI.2.2.1
      exact List.count_pos_iff.mp (by omega)
    simp only [List.count, List.countP_map]
    have := List.countP_congr (l := outI)
      (p := (fun x => x == (store.getD (store.findIdx (fun r => r.1 = word)) ("", "")).2) ∘
        (fun i => (store.getD i ("", "")).2))
      (q := fun i => i == store.findIdx (fun r => r.1 = word))
      (fun x hx => by
        simp only [Function.comp, beq_iff_eq]
        constructor
        · intro hfe
          exact hinj x hx _ ht hfe
        · intro hxe
          subst hxe
          rfl)
    rw [this]
    exact hI.2.2.1

theorem quiz_choice_lists_spec_witness :
    (([("alpha", "adef"), ("beta", "bdef")] : List (String × String)).findIdx
        (fun r => r.1 = "alpha") <
      ([("alpha", "adef"), ("beta", "bdef")] : List (String × String)).length) ∧
    (1 ≤ 2) ∧
    ((get_definition_inds 0 [1] 2).Nodup ∧ (get_definition_inds 0 [1] 2).count 0 = 1) ∧
    (_get_words "alpha" ["beta"] 2).count "alpha" = 1 :=
  ⟨by decide, by decide,
   ⟨(quiz_choice_lists_spec [("alpha", "adef"), ("beta", "bdef")] "alpha" [1] ["beta"] 2
       (get_definition_inds 0 [1] 2) (_get_words "alpha" ["beta"] 2)
       (by decide) (by decide) (by decide) (by decide)).1.2.1,
    (quiz_choice_lists_spec [("alpha", "adef"), ("beta", "bdef")] "alpha" [1] ["beta"] 2
       (get_definition_inds 0 [1] 2) (_get_words "alpha" ["beta"] 2)
       (by decide) (by decide) (by decide) (by decide)).1.2.2⟩,
   (quiz_choice_lists_spec [("alpha", "adef"), ("beta", "bdef")] "alpha" [1] ["beta"] 2
       (get_definition_inds 0 [1] 2) (_get_words "alpha" ["beta"] 2)
       (by decide) (by decide) (by decide) (by decide)).2.1.2.2⟩

/-- C7: for every flashcard session over a store of distinct words, a
run that discards every word performs exactly as many discard operations
as the initial deck has words before the session exits (DONE), the
discard sequence has no repeated word, keep draws from the unchanged
deck, and discard removes exactly the currently shown card's word. -/
theorem flashcard_discard_all (store : List (String × String)) (side0 : String)
    (p0 : Nat) (picks : List Nat)
    (hnd : (store.map (fun r => r.1)).Nodup)
    (hlen : picks.length = store.length) :
    (run_discards (CardRunState.init store side0 p0) picks).hasExited = true ∧
    (run_discards (CardRunState.init store side0 p0) picks).discards.length =
      store.length ∧
    (run_discards (CardRunState.init store side0 p0) picks).discards.Nodup ∧
    (∀ (st : CardRunState) (q : Nat), st.hasExited = false →
      (handle_input st .keep q).words = st.words) ∧
    (∀ (st : CardRunState) (q : Nat), st.hasExited = false →
      (handle_input st .discard q).words = st.words.erase st.card.word) := by
  have hkeep : ∀ (st : CardRunState) (q : Nat), st.hasExited = false →
      (handle_input st .keep q).words = st.words := by
    intro st q hE
    have : handle_input st .keep q = draw_card st q := by simp [handle_input, hE]
    rw [this]
    exact (draw_card_fields st q).1
  have hdisc : ∀ (st : CardRunState) (q : Nat), st.hasExited = false →
      (handle_input st .discard q).words = st.words.erase st.card.word := by
    intro st q hE
    exact (discard_step_char st q hE).1
  by_cases hs : store = []
  · subst hs
    have hps : picks = [] := List.length_eq_zero.mp (by simpa using hlen)
    subst hps
    refine ⟨?_, ?_, ?_, hkeep, hdisc⟩ <;>
      simp [run_discards, CardRunState.init, draw_card]
  · have hne : store.map (fun r => r.1) ≠ [] := by
      intro hh
      exact hs (List.map_eq_nil_iff.mp hh)
    have hinit : CardRunState.init store side0 p0 =
        draw_card { defs := store, words := store.map (fun r => r.1), side := side0,
                    card := Card.init "" "", hasExited := false, discards := [] } p0 := rfl
    rw [hinit]
    have hfields := draw_card_fields
      { defs := store, words := store.map (fun r => r.1), side := side0,
        card := Card.init "" "", hasExited := false, discards := [] } p0
    set dc := draw_card
      { defs := store, words := store.map (fun r => r.1), side := side0,
        card := Card.init "" "", hasExited := false, discards := [] } p0 with hdc
    have hEinit : dc.hasExited = false := by
      cases hx : dc.hasExited
      · rfl
      · have := hfields.2.2.2.1.mp hx
        simp at this
        exact absurd this hs
    have hInv : CardInv dc := by
      refine ⟨?_, ?_, ?_, ?_⟩
      · rw [hfields.1]; exact hnd
      · rw [hfields.2.1]; exact List.nodup_nil
      · rw [hfields.2.1]; simp
      · intro _
        rw [hfields.1]
        exact hfields.2.2.2.2 hne
    have hlen' : picks.length = dc.words.length := by
      rw [hfields.1]
      simpa using hlen
    have hmain := run_discards_spec picks dc hInv hEinit hlen'
    refine ⟨hmain.1, ?_, hmain.2.2, hkeep, hdisc⟩
    rw [hmain.2.1, hfields.2.1]
    simpa using hlen

theorem flashcard_discard_all_witness :
    ((([("a", "da"), ("b", "db")] : List (String × String)).map (fun r => r.1)).Nodup) ∧
    ([0, 0] : List Nat).length =
      ([("a", "da"), ("b", "db")] : List (String × String)).length ∧
    (run_discards (CardRunState.init [("a", "da"), ("b", "db")] "word" 0) [0, 0]).hasExited =
      true ∧
    (run_discards (CardRunState.init [("a", "da"), ("b", "db")] "word" 0) [0, 0]).discards.length =
      2 ∧
    (run_discards (CardRunState.init [("a", "da"), ("b", "db")] "word" 0) [0, 0]).discards.Nodup :=
  ⟨by decide, by decide,
   (flashcard_discard_all [("a", "da"), ("b", "db")] "word" 0 [0, 0]
     (by decide) (by decide)).1,
   (flashcard_discard_all [("a", "da"), ("b", "db")] "word" 0 [0, 0]
     (by decide) (by decide)).2.1,
   (flashcard_discard_all [("a", "da"), ("b", "db")] "word" 0 [0, 0]
     (by decide) (by decide)).2.2.1⟩

end Prolix
